import Mathlib

/-!
Shallow embedding of the asset orchestration service
(src/server/src/domain/asset/asset.service.ts) of the immich fork.

Entities are reduced to the fields the service reads; repository calls
become explicit state passing over plain lists.  Stack member relations
(asset.stack.assets) are represented by their ids, since the service only
ever reads the ids (asset.service.ts lines 515, 447, 452, 461).
Fire-and-forget notification sends (communicationRepository.send) are not
modelled: no claim mentions them.  JavaScript truthiness on optional
strings is modelled by truthyStr; an asset-deletion job's optional
fromExternal flag is an Option Bool, with fromExternalSet giving its
truth value (undefined and false are both falsy).
-/

namespace Immich

/-- Library type from app/infra/entities: internally managed upload
libraries versus externally managed libraries. -/
inductive LibraryType where
  | upload
  | external
deriving DecidableEq, Repr

/-- The slice of a library entity the service reads: its type. -/
structure LibraryEntity where
  type : LibraryType
deriving DecidableEq, Repr

/-- Stack entity: id, designated primary member, and the member assets
reduced to their ids (the service only reads member ids). -/
structure AssetStackEntity where
  id : String
  primaryAssetId : String
  assets : List String
deriving DecidableEq, Repr

/-- Asset entity reduced to the fields asset.service.ts reads.
exifInfo.fileSizeInByte becomes fileSizeInByte (missing exif = none);
derived file paths are nullable as in the database. -/
structure AssetEntity where
  id : String
  ownerId : String
  originalPath : String
  originalFileName : String
  livePhotoVideoId : Option String
  isReadOnly : Bool
  library : Option LibraryEntity
  stackId : Option String
  stack : Option AssetStackEntity
  fileSizeInByte : Option Nat
  webpPath : Option String
  resizePath : Option String
  encodedVideoPath : Option String
  sidecarPath : Option String
deriving DecidableEq, Repr

/-- Jobs the service enqueues through jobRepository: ASSET_DELETION
carries an id and an optional fromExternal flag (absent when the service
cascades to a live-photo companion, line 536); DELETE_FILES carries the
possibly-null file paths (lines 539-545). -/
inductive JobItem where
  | assetDeletion (id : String) (fromExternal : Option Bool)
  | deleteFiles (files : List (Option String))
deriving DecidableEq, Repr

/-- JavaScript truthiness of the optional fromExternal flag:
undefined and false are falsy, true is truthy. -/
def fromExternalSet (fromExternal : Option Bool) : Bool :=
  fromExternal.getD false

/-- JavaScript truthiness of a nullable string field (null, undefined and
the empty string are falsy). -/
def truthyStr (s : Option String) : Bool :=
  s.getD "" != ""

/-- assetRepository.getById: first asset with the given id. -/
def getById (assets : List AssetEntity) (id : String) : Option AssetEntity :=
  assets.find? (fun a => a.id == id)

/-- assetRepository.getByIds: the stored rows whose id is in the list,
each row once, in store order. -/
def getByIds (assets : List AssetEntity) (ids : List String) : List AssetEntity :=
  assets.filter (fun a => ids.contains a.id)

/-- Stack store lookup by id. -/
def findStackById (rows : List AssetStackEntity) (id : String) :
    Option AssetStackEntity :=
  rows.find? (fun st => st.id == id)

/-- assetStackRepository.save: partial update of the row with the given
id; a field passed as none is left unchanged (an undefined field in a
TypeORM save is not written). -/
def stackStoreSave (rows : List AssetStackEntity) (id : String)
    (primaryAssetId : Option String) (members : Option (List String)) :
    List AssetStackEntity :=
  rows.map (fun st =>
    if st.id == id then
      { st with
        primaryAssetId := primaryAssetId.getD st.primaryAssetId
        assets := members.getD st.assets }
    else st)

/-- assetStackRepository.delete: remove the row with the given id. -/
def stackStoreDelete (rows : List AssetStackEntity) (id : String) :
    List AssetStackEntity :=
  rows.filter (fun st => st.id != id)

/-- The recorded file size of an asset: exifInfo.fileSizeInByte or 0
(lines 318 and 531). -/
def assetSize (a : AssetEntity) : Nat :=
  a.fileSizeInByte.getD 0

/-- The stores and effect traces handleAssetDeletion touches: the asset
store, the stack store, the sequence of userRepository.updateUsage calls
(owner, delta) and the sequence of enqueued jobs. -/
structure DeletionState where
  assets : List AssetEntity
  stackStore : List AssetStackEntity
  usageUpdates : List (String × Int)
  queued : List JobItem
deriving DecidableEq, Repr

/-- AssetService.handleAssetDeletion (asset.service.ts lines 500-549),
for a job with the given id and fromExternal flag.  Returns the updated
state and the boolean result of the handler. -/
def handleAssetDeletion (s : DeletionState) (id : String)
    (fromExternal : Option Bool) : DeletionState × Bool :=
  match getById s.assets id with
  | none => (s, false)
  | some asset =>
    -- line 509: requests not from an external library job for an
    -- external (or library-less) asset are ignored
    if !fromExternalSet fromExternal &&
        (asset.library.isNone ||
          asset.library.any (fun l => l.type == LibraryType.external)) then
      (s, false)
    else
      -- lines 514-528: replace the stack primary or dissolve the stack
      let newStackStore : List AssetStackEntity :=
        match asset.stack with
        | some stk =>
          if stk.primaryAssetId == id then
            if stk.assets.length > 2 then
              stackStoreSave s.stackStore stk.id
                (stk.assets.find? (fun a => a != id)) none
            else
              stackStoreDelete s.stackStore stk.id
          else s.stackStore
        | none => s.stackStore
      -- lines 535-537: cascade to the live-photo companion (id only)
      let companionJobs : List JobItem :=
        match asset.livePhotoVideoId with
        | some v => [JobItem.assetDeletion v none]
        | none => []
      -- lines 539-546: file removal job, originals only when not external
      let files : List (Option String) :=
        [asset.webpPath, asset.resizePath, asset.encodedVideoPath,
          asset.sidecarPath] ++
        (if !fromExternalSet fromExternal then [some asset.originalPath] else [])
      let fileJobs : List JobItem :=
        if !asset.isReadOnly then [JobItem.deleteFiles files] else []
      -- lines 530-532: remove the row, decrement the owner's usage, then
      -- enqueue the follow-up jobs in source order
      ({ assets := s.assets.filter (fun a => a.id != asset.id)
         stackStore := newStackStore
         usageUpdates := s.usageUpdates ++
           [(asset.ownerId, -(Int.ofNat (assetSize asset)))]
         queued := s.queued ++ companionJobs ++ fileJobs }, true)

/-! Archive batcher: AssetService.getDownloadInfo (lines 304-336).

The TypeScript accumulator is a mutable object.  The running archive is
pushed to the output at the end of every page when non-empty (line
327-329, inside the page loop) without being reset, so every such push
aliases the object that keeps accumulating; only the reassignment on
line 323 freezes it.  The embedding keeps the frozen archives in
closedArchives, the still-mutable accumulator in current, and the number
of times current has already been pushed (aliased) in pendingPushes;
rendering replicates the final value of current pendingPushes times,
which is exactly what the aliased pushes observe. -/

/-- DownloadArchiveInfo: running size and accumulated asset ids. -/
structure DownloadArchiveInfo where
  size : Nat
  assetIds : List String
deriving DecidableEq, Repr

/-- Intermediate state of the page loop of getDownloadInfo. -/
structure DownloadAcc where
  closedArchives : List DownloadArchiveInfo
  current : DownloadArchiveInfo
  pendingPushes : Nat
deriving DecidableEq, Repr

/-- DownloadResponseDto: total size and the archive list. -/
structure DownloadResponseDto where
  totalSize : Nat
  archives : List DownloadArchiveInfo
deriving DecidableEq, Repr

/-- HumanReadableSize.GiB from domain.util. -/
def humanReadableSizeGiB : Nat := 1073741824

/-- Lines 317-325: add one asset to the running archive; when the running
size strictly exceeds the target, push the archive (materialising every
aliased pending push of the same object) and start a fresh one. -/
def downloadStep (targetSize : Nat) (acc : DownloadAcc) (asset : AssetEntity) :
    DownloadAcc :=
  let cur : DownloadArchiveInfo :=
    { size := acc.current.size + assetSize asset
      assetIds := acc.current.assetIds ++ [asset.id] }
  if cur.size > targetSize then
    { closedArchives := acc.closedArchives ++
        List.replicate (acc.pendingPushes + 1) cur
      current := { size := 0, assetIds := [] }
      pendingPushes := 0 }
  else
    { acc with current := cur }

/-- Lines 311-315: append the motion parts of the page's live photos,
fetched in one batch, to the end of the page. -/
def pageAssets (store : List AssetEntity) (assets : List AssetEntity) :
    List AssetEntity :=
  let motionIds := assets.filterMap (fun a => a.livePhotoVideoId)
  if motionIds.length > 0 then assets ++ getByIds store motionIds else assets

/-- One iteration of the page loop (lines 310-330): process the page's
assets then push the running archive when it is non-empty. -/
def downloadPage (store : List AssetEntity) (targetSize : Nat)
    (acc : DownloadAcc) (page : List AssetEntity) : DownloadAcc :=
  let acc := (pageAssets store page).foldl (downloadStep targetSize) acc
  if acc.current.assetIds.length > 0 then
    { acc with pendingPushes := acc.pendingPushes + 1 }
  else acc

/-- AssetService.getDownloadInfo (lines 304-336) over an already
paginated asset stream; archiveSize = none models an absent
dto.archiveSize (and 0 is falsy, line 305). -/
def getDownloadInfo (store : List AssetEntity) (archiveSize : Option Nat)
    (pages : List (List AssetEntity)) : DownloadResponseDto :=
  let targetSize :=
    match archiveSize with
    | some n => if n = 0 then humanReadableSizeGiB * 4 else n
    | none => humanReadableSizeGiB * 4
  let acc := pages.foldl (downloadPage store targetSize)
    { closedArchives := [], current := { size := 0, assetIds := [] },
      pendingPushes := 0 }
  let archives := acc.closedArchives ++
    List.replicate acc.pendingPushes acc.current
  { totalSize := (archives.map (fun a => a.size)).foldl (· + ·) 0
    archives := archives }

/-- The asset ids of a download response in archive order. -/
def archiveOrder (r : DownloadResponseDto) : List String :=
  r.archives.flatMap (fun a => a.assetIds)

/-! Zip naming: AssetService.downloadArchive (lines 338-360).  The
Record of per-filename counts becomes an association list; the external
extname helper from the path module is a parameter. -/

/-- One addFile call on the zip stream: source path and entry name. -/
structure ZipEntry where
  path : String
  filename : String
deriving DecidableEq, Repr

/-- Reading paths[filename] with JavaScript || 0: a missing key (and a
stored 0, which never occurs) reads as 0. -/
def lookupCount (paths : List (String × Nat)) (key : String) : Nat :=
  match paths.find? (fun p => p.1 == key) with
  | some p => p.2
  | none => 0

/-- Writing paths[filename] = v: replace the entry when the key is
present, append it otherwise. -/
def setCount (paths : List (String × Nat)) (key : String) (v : Nat) :
    List (String × Nat) :=
  if paths.any (fun p => p.1 == key) then
    paths.map (fun p => if p.1 == key then (key, v) else p)
  else paths ++ [(key, v)]

/-- The loop body of downloadArchive (lines 345-355), threading the
counts map. -/
def zipGo (ext : String → String) (paths : List (String × Nat)) :
    List AssetEntity → List ZipEntry
  | [] => []
  | a :: rest =>
    let extension := ext a.originalPath
    let base := a.originalFileName ++ extension
    let count := lookupCount paths base
    let paths := setCount paths base (count + 1)
    let filename :=
      if count != 0 then
        a.originalFileName ++ "+" ++ toString count ++ extension
      else base
    { path := a.originalPath, filename := filename } :: zipGo ext paths rest

/-- The sequence of zip entries downloadArchive produces for the fetched
assets, in order. -/
def zipNames (ext : String → String) (assets : List AssetEntity) :
    List ZipEntry :=
  zipGo ext [] assets

/-- The name the specification assigns to one asset given the assets
already processed: the combined name unchanged for its first occurrence,
originalFileName+k followed by the extension for the k-th repeat. -/
def specName (ext : String → String) (prior : List AssetEntity)
    (a : AssetEntity) : String :=
  let combined := a.originalFileName ++ ext a.originalPath
  let k := (prior.filter
    (fun b => b.originalFileName ++ ext b.originalPath == combined)).length
  if k = 0 then combined
  else a.originalFileName ++ "+" ++ toString k ++ ext a.originalPath

/-- Specification-side renaming: every asset named by specName against
the assets before it. -/
def specZipGo (ext : String → String) (prior : List AssetEntity) :
    List AssetEntity → List ZipEntry
  | [] => []
  | a :: rest =>
    { path := a.originalPath, filename := specName ext prior a } ::
      specZipGo ext (prior ++ [a]) rest

/-- Modelled from the spec: the naming-collision contract of the archive
builder, with each entry named from the multiset of combined names seen
before it. -/
def specZipNames (ext : String → String) (assets : List AssetEntity) :
    List ZipEntry :=
  specZipGo ext [] assets

/-! Stack mutation: AssetService.updateAll (lines 415-479).  The store
writes are recorded as an ordered operation trace; permission evaluation
(AccessCore.requirePermission, an external collaborator) is a parameter
giving the caller's ASSET_UPDATE right per asset id.  The metadata
side-writes (updateMetadata, lines 472-474) upsert exif rows and enqueue
sidecar jobs only when metadata fields are present; the claims pass no
metadata fields, so they are not part of the trace. -/

/-- The store operations updateAll issues, in order. -/
inductive StoreOp where
  | stackCreate (primaryAssetId : String) (assets : List String)
  | stackSave (id : String) (primaryAssetId : String) (assets : List String)
  | assetUpdateAll (ids : List String)
  | stackDelete (id : String)
deriving DecidableEq, Repr

/-- Whether a store operation is a stack deletion. -/
def StoreOp.isStackDelete : StoreOp → Bool
  | .stackDelete _ => true
  | _ => false

/-- A trace in which every non-delete store write precedes every stack
deletion: it splits as the writes followed by the deletions. -/
def writesBeforeDeletes (ops : List StoreOp) : Prop :=
  ∃ (pre : List StoreOp) (dels : List String),
    ops = pre ++ List.map StoreOp.stackDelete dels ∧
    ∀ op ∈ pre, op.isStackDelete = false

/-- The failures updateAll can raise: a failed permission check
(Forbidden) or the missing stack parent (line 432). -/
inductive UpdateAllError where
  | forbidden
  | assetNotFound
deriving DecidableEq, Repr

/-- AssetBulkUpdateDto reduced to the fields the stack logic reads. -/
structure AssetBulkUpdateDto where
  ids : List String
  removeParent : Bool
  stackParentId : Option String
deriving DecidableEq, Repr

/-- JavaScript Set spread: deduplicate keeping first occurrences. -/
def firstDedupAux (seen : List String) : List String → List String
  | [] => []
  | x :: xs =>
    if seen.contains x then firstDedupAux seen xs
    else x :: firstDedupAux (x :: seen) xs

/-- Deduplicate a list of ids keeping first occurrences. -/
def firstDedup (xs : List String) : List String :=
  firstDedupAux [] xs

/-- AssetService.updateAll (lines 415-479): the ordered store-operation
trace and, when the call throws, the error; an error ends the trace at
the point it is thrown. -/
def updateAll (perm : String → Bool) (assets : List AssetEntity)
    (dto : AssetBulkUpdateDto) : List StoreOp × Option UpdateAllError :=
  let ids := dto.ids
  -- line 417: requirePermission on every target id
  if !(ids.all perm) then ([], some UpdateAllError.forbidden)
  else if dto.removeParent then
    -- lines 420-426
    let found := getByIds assets ids
    let stackIdsToDelete :=
      firstDedup ((found.filter (fun a => truthyStr a.stackId)).map
        (fun a => a.stackId.getD ""))
    let ids := ids ++
      firstDedup ((found.filter
        (fun a => truthyStr (a.stack.map (fun st => st.primaryAssetId)))).map
        (fun a => (a.stack.map (fun st => st.primaryAssetId)).getD ""))
    ([StoreOp.assetUpdateAll ids] ++ stackIdsToDelete.map StoreOp.stackDelete,
      none)
  else if truthyStr dto.stackParentId then
    -- lines 427-470
    let pid := dto.stackParentId.getD ""
    if !(perm pid) then ([], some UpdateAllError.forbidden)
    else
      match getById assets pid with
      | none => ([], some UpdateAllError.assetNotFound)
      | some primaryAsset =>
        let stack := primaryAsset.stack
        let ids := ids ++ [pid]
        let found := getByIds assets ids
        let stackIdsToDelete :=
          firstDedup ((found.filter (fun a =>
            truthyStr a.stackId &&
              !((stack.map (fun st => st.id)) == a.stackId))).map
            (fun a => a.stackId.getD ""))
        let assetsWithChildren := found.filter
          (fun a => a.stack.any (fun st => st.assets.length > 0))
        let ids := ids ++ assetsWithChildren.flatMap
          (fun child => (child.stack.map (fun st => st.assets)).getD [])
        let createOrSave :=
          match stack with
          | none => StoreOp.stackCreate primaryAsset.id ids
          | some st => StoreOp.stackSave st.id primaryAsset.id ids
        ([createOrSave, StoreOp.assetUpdateAll ids] ++
          stackIdsToDelete.map StoreOp.stackDelete, none)
  else
    ([StoreOp.assetUpdateAll ids], none)

/-! Concrete fixtures used by counterexamples and witnesses. -/

/-- A plain internally-stored asset usable as a concrete fixture: owner o,
original file id.jpg, recorded size 1, no stack, no derived files. -/
def mkAsset (id : String) : AssetEntity :=
  { id := id, ownerId := "o", originalPath := id ++ ".jpg",
    originalFileName := id, livePhotoVideoId := none, isReadOnly := false,
    library := some { type := LibraryType.upload }, stackId := none,
    stack := none, fileSizeInByte := some 1, webpPath := none,
    resizePath := none, encodedVideoPath := none, sidecarPath := none }

/-- Three-member stack with primary d. -/
def stackThree : AssetStackEntity :=
  { id := "S3", primaryAssetId := "d", assets := ["d", "e", "f"] }

/-- The primary asset of stackThree. -/
def assetDofThree : AssetEntity :=
  { mkAsset "d" with stackId := some "S3", stack := some stackThree }

/-- Deletion state holding the three-member stack and its primary. -/
def stateThree : DeletionState :=
  { assets := [assetDofThree], stackStore := [stackThree],
    usageUpdates := [], queued := [] }

/-- Two-member stack with primary d. -/
def stackTwo : AssetStackEntity :=
  { id := "S2", primaryAssetId := "d", assets := ["d", "e"] }

/-- The primary asset of stackTwo. -/
def assetDofTwo : AssetEntity :=
  { mkAsset "d" with stackId := some "S2", stack := some stackTwo }

/-- Deletion state holding the two-member stack and its primary. -/
def stateTwo : DeletionState :=
  { assets := [assetDofTwo], stackStore := [stackTwo],
    usageUpdates := [], queued := [] }

/-- Deletion state with an empty asset store. -/
def emptyDelState : DeletionState :=
  { assets := [], stackStore := [], usageUpdates := [], queued := [] }

/-- An asset of an externally-managed library. -/
def externalAsset : AssetEntity :=
  { mkAsset "x2" with library := some { type := LibraryType.external } }

/-- Deletion state holding only the external asset. -/
def externalState : DeletionState :=
  { assets := [externalAsset], stackStore := [], usageUpdates := [],
    queued := [] }

/-- A read-only internally-stored asset. -/
def readOnlyAsset : AssetEntity := { mkAsset "r" with isReadOnly := true }

/-- Deletion state holding only the read-only asset. -/
def readOnlyState : DeletionState :=
  { assets := [readOnlyAsset], stackStore := [], usageUpdates := [],
    queued := [] }

/-- Deletion state holding one plain internally-stored asset a. -/
def plainState : DeletionState :=
  { assets := [mkAsset "a"], stackStore := [], usageUpdates := [],
    queued := [] }

/-- A live-photo primary whose motion companion is m. -/
def liveAsset : AssetEntity :=
  { mkAsset "L" with livePhotoVideoId := some "m" }

/-- Deletion state holding only the live-photo primary. -/
def liveState : DeletionState :=
  { assets := [liveAsset], stackStore := [], usageUpdates := [],
    queued := [] }

/-- The motion companion m, stored in an externally-managed library. -/
def extCompanion : AssetEntity :=
  { mkAsset "m" with library := some { type := LibraryType.external } }

/-- Deletion state holding only the external companion. -/
def extCompanionState : DeletionState :=
  { assets := [extCompanion], stackStore := [], usageUpdates := [],
    queued := [] }

/-- A live-photo primary p1 with companion m1, for the download claims. -/
def livePrimary : AssetEntity :=
  { mkAsset "p1" with livePhotoVideoId := some "m1" }

/-- A plain asset x sitting after the live-photo primary in its page. -/
def plainAfter : AssetEntity := mkAsset "x"

/-- The asset store backing the download counterexample: the page's two
assets and the motion companion m1. -/
def downloadStoreSix : List AssetEntity :=
  [livePrimary, plainAfter, mkAsset "m1"]

/-- An asset with a chosen recorded size, for the batching claims. -/
def sizedAsset (id : String) (sz : Nat) : AssetEntity :=
  { mkAsset id with fileSizeInByte := some sz }

/-- The page of the archive-batching boundary example, sizes in tenths of
a GiB: 1 GiB, 1 GiB, 1 GiB, 1.5 GiB, 0.6 GiB. -/
def boundaryPage : List AssetEntity :=
  [sizedAsset "s1" 10, sizedAsset "s2" 10, sizedAsset "s3" 10,
    sizedAsset "s4" 15, sizedAsset "s5" 6]

/-- A stack row S with members q and r, primary q. -/
def stackQ : AssetStackEntity :=
  { id := "S", primaryAssetId := "q", assets := ["q", "r"] }

/-- The asset q as a member (and primary) of stackQ. -/
def stackedQ : AssetEntity :=
  { mkAsset "q" with stackId := some "S", stack := some stackQ }

/-- A removeParent bulk update targeting q. -/
def removeParentDto : AssetBulkUpdateDto :=
  { ids := ["q"], removeParent := true, stackParentId := none }

/-- Whether a queued job is an ASSET_DELETION job. -/
def JobItem.isAssetDeletionJob : JobItem → Bool
  | .assetDeletion _ _ => true
  | .deleteFiles _ => false

/-! Helper lemmas about the store primitives. -/

/-- An asset found by getById carries the id it was looked up by. -/
theorem getById_some_id {assets : List AssetEntity} {id : String}
    {a : AssetEntity} (h : getById assets id = some a) : a.id = id := by
  have := List.find?_some h
  exact eq_of_beq this

/-- Removing every row with an id makes that id unresolvable. -/
theorem getById_filter_ne (assets : List AssetEntity) (id : String) :
    getById (assets.filter (fun a => a.id != id)) id = none := by
  rw [getById, List.find?_eq_none]
  intro a ha
  have := (List.mem_filter.mp ha).2
  simpa using this

/-- A stack-store save is a partial update of the row with that id. -/
theorem findStackById_stackStoreSave (rows : List AssetStackEntity)
    (id : String) (p : Option String) (m : Option (List String)) :
    findStackById (stackStoreSave rows id p m) id =
      (findStackById rows id).map (fun st =>
        { st with primaryAssetId := p.getD st.primaryAssetId
                  assets := m.getD st.assets }) := by
  rw [findStackById, stackStoreSave, List.find?_map]
  have hfun : ((fun t : AssetStackEntity => t.id == id) ∘ (fun st =>
      if st.id == id then
        ({ st with primaryAssetId := p.getD st.primaryAssetId
                   assets := m.getD st.assets } : AssetStackEntity)
      else st)) = fun t : AssetStackEntity => t.id == id := by
    funext t
    by_cases hc : (t.id == id) = true <;> simp [Function.comp, hc]
  rw [hfun, findStackById]
  cases hf : List.find? (fun t : AssetStackEntity => t.id == id) rows with
  | none => rfl
  | some st =>
    have hst := List.find?_some hf
    have hid : st.id = id := eq_of_beq hst
    simp [hid]

/-- A stack-store delete removes the row with that id. -/
theorem findStackById_stackStoreDelete (rows : List AssetStackEntity)
    (id : String) :
    findStackById (stackStoreDelete rows id) id = none := by
  rw [findStackById, List.find?_eq_none]
  intro st hmem
  have := (List.mem_filter.mp hmem).2
  simpa using this

/-- A list of at least three distinct ids has a member different from any
given id, and find? returns the first such member. -/
theorem find?_ne_isSome_of_nodup {xs : List String} {id : String}
    (hn : xs.Nodup) (hl : 2 < xs.length) :
    ∃ sib, xs.find? (fun a => a != id) = some sib := by
  match xs, hn, hl with
  | x :: y :: t, hn, _ =>
    by_cases hx : x = id
    · subst hx
      have hyx : y ≠ x := fun h => by simp [h] at hn
      refine ⟨y, ?_⟩
      rw [List.find?_cons_of_neg _ (by simp), List.find?_cons_of_pos]
      simp [bne_iff_ne, hyx]
    · exact ⟨x, by rw [List.find?_cons_of_pos]; simp [bne_iff_ne, hx]⟩

/-! Claim theorems. -/

/-- C4: a deletion job for an id that does not resolve returns false
without throwing and without touching the stores or the usage counter; a
job not flagged fromExternal whose asset has no library reference or an
externally-managed library likewise returns false with no mutation; and
the handler returns true exactly when the asset row is removed from the
asset store. -/
theorem handleAssetDeletion_absent_or_skip_noop
    (s : DeletionState) (id : String) (fe : Option Bool) :
    (getById s.assets id = none → handleAssetDeletion s id fe = (s, false)) ∧
    (∀ asset, getById s.assets id = some asset →
      fromExternalSet fe = false →
      (asset.library.isNone ||
        asset.library.any (fun l => l.type == LibraryType.external)) = true →
      handleAssetDeletion s id fe = (s, false)) ∧
    ((handleAssetDeletion s id fe).2 = true ↔
      ((getById s.assets id).isSome = true ∧
        getById (handleAssetDeletion s id fe).1.assets id = none)) := by
  refine ⟨?_, ?_, ?_⟩
  · intro h
    simp [handleAssetDeletion, h]
  · intro asset h hfe hlib
    simp [handleAssetDeletion, h, hfe, hlib]
  · cases hfind : getById s.assets id with
    | none => simp [handleAssetDeletion, hfind]
    | some asset =>
      by_cases hskip : (!fromExternalSet fe &&
          (asset.library.isNone ||
            asset.library.any (fun l => l.type == LibraryType.external))) = true
      · simp [handleAssetDeletion, hfind, hskip]
      · have hid : asset.id = id := getById_some_id hfind
        simp [handleAssetDeletion, hfind, hskip, hid, getById_filter_ne]

/-- Witness for C4: deleting a missing id in the empty state, and
deleting an external-library asset without the fromExternal flag, are
no-ops returning false. -/
theorem handleAssetDeletion_absent_or_skip_noop_witness :
    handleAssetDeletion emptyDelState "ghost" none = (emptyDelState, false) ∧
    handleAssetDeletion externalState "x2" none = (externalState, false) :=
  ⟨(handleAssetDeletion_absent_or_skip_noop emptyDelState "ghost" none).1 rfl,
    (handleAssetDeletion_absent_or_skip_noop externalState "x2" none).2.1
      externalAsset rfl rfl rfl⟩

/-- C1: for a deletion job whose asset exists, is deletion-eligible and
is the primary of its stack: when the stack has more than 2 members, the
stack row is kept and its primaryAssetId is rewritten to the first
member id other than the deleted asset's id; when it has 2 or fewer
members, the stack row is deleted from the stack store. -/
theorem handleAssetDeletion_stack_primary_resolution
    (s : DeletionState) (id : String) (fe : Option Bool)
    (asset : AssetEntity) (stk st0 : AssetStackEntity)
    (hA : getById s.assets id = some asset)
    (hskip : (!fromExternalSet fe && (asset.library.isNone ||
        asset.library.any (fun l => l.type == LibraryType.external))) = false)
    (hstk : asset.stack = some stk)
    (hprim : stk.primaryAssetId = id)
    (hstore : findStackById s.stackStore stk.id = some st0) :
    (2 < stk.assets.length → stk.assets.Nodup →
      ∃ sib, stk.assets.find? (fun a => a != id) = some sib ∧
        findStackById (handleAssetDeletion s id fe).1.stackStore stk.id =
          some { st0 with primaryAssetId := sib }) ∧
    (stk.assets.length ≤ 2 →
      findStackById (handleAssetDeletion s id fe).1.stackStore stk.id =
        none) := by
  constructor
  · intro hlen hnodup
    obtain ⟨sib, hsib⟩ := find?_ne_isSome_of_nodup hnodup hlen
    refine ⟨sib, hsib, ?_⟩
    simp only [handleAssetDeletion, hA, hskip, hstk, hprim, hsib,
      Bool.false_eq_true, if_false, beq_self_eq_true, if_true, hlen, if_pos,
      reduceIte]
    rw [findStackById_stackStoreSave, hstore]
    rfl
  · intro hle
    have hnot : ¬(2 < stk.assets.length) := Nat.not_lt.mpr hle
    simp only [handleAssetDeletion, hA, hskip, hstk, hprim,
      Bool.false_eq_true, if_false, beq_self_eq_true, if_true, reduceIte]
    rw [if_neg hnot]
    exact findStackById_stackStoreDelete s.stackStore stk.id

/-- Witness for C1: deleting the primary d of the three-member stack
S3 = [d, e, f] promotes e and keeps the row; deleting the primary d of
the two-member stack S2 = [d, e] deletes the row. -/
theorem handleAssetDeletion_stack_primary_resolution_witness :
    (∃ sib, stackThree.assets.find? (fun a => a != "d") = some sib ∧
      findStackById (handleAssetDeletion stateThree "d" (some true)).1.stackStore
        stackThree.id = some { stackThree with primaryAssetId := sib }) ∧
    findStackById (handleAssetDeletion stateTwo "d" (some true)).1.stackStore
      stackTwo.id = none :=
  ⟨(handleAssetDeletion_stack_primary_resolution stateThree "d" (some true)
      assetDofThree stackThree stackThree rfl rfl rfl rfl rfl).1
      (by decide) (by decide),
    (handleAssetDeletion_stack_primary_resolution stateTwo "d" (some true)
      assetDofTwo stackTwo stackTwo rfl rfl rfl rfl rfl).2 (by decide)⟩

/-- C5, counterexample: the read-only asset r is purged (the handler
returns true) yet no file-removal job is enqueued at all, because the
enqueue on line 545 is guarded by !asset.isReadOnly (line 544); the claim
says every purged asset gets a file-removal job. -/
theorem purge_readOnly_no_file_job :
    (handleAssetDeletion readOnlyState "r" none).2 = true ∧
    (handleAssetDeletion readOnlyState "r" none).1.queued = [] := by
  constructor <;> rfl

/-- C5, amended: for every purged asset that is not read-only, exactly
one file-removal job is enqueued, listing the four derived-file paths
and, exactly when the job's fromExternal flag is not set, the original
path; a purged read-only asset enqueues no file-removal job. -/
theorem purge_file_removal_jobs
    (s : DeletionState) (id : String) (fe : Option Bool)
    (asset : AssetEntity)
    (hA : getById s.assets id = some asset)
    (hpurged : (handleAssetDeletion s id fe).2 = true) :
    (asset.isReadOnly = false →
      (handleAssetDeletion s id fe).1.queued =
        s.queued ++
          (match asset.livePhotoVideoId with
            | some v => [JobItem.assetDeletion v none]
            | none => []) ++
          [JobItem.deleteFiles
            ([asset.webpPath, asset.resizePath, asset.encodedVideoPath,
                asset.sidecarPath] ++
              (if !fromExternalSet fe then [some asset.originalPath]
                else []))]) ∧
    (asset.isReadOnly = true →
      (handleAssetDeletion s id fe).1.queued =
        s.queued ++
          (match asset.livePhotoVideoId with
            | some v => [JobItem.assetDeletion v none]
            | none => [])) := by
  by_cases hskip : (!fromExternalSet fe &&
      (asset.library.isNone ||
        asset.library.any (fun l => l.type == LibraryType.external))) = true
  · rw [show handleAssetDeletion s id fe = (s, false) by
      simp [handleAssetDeletion, hA, hskip]] at hpurged
    simp at hpurged
  · constructor
    · intro hro
      simp [handleAssetDeletion, hA, hskip, hro]
    · intro hro
      simp [handleAssetDeletion, hA, hskip, hro]

/-- Witness for C5 (amended): purging the plain internally-stored asset
a without the fromExternal flag enqueues one file-removal job whose path
list is the four derived paths followed by the original path. -/
theorem purge_file_removal_jobs_witness :
    (handleAssetDeletion plainState "a" none).1.queued =
      [JobItem.deleteFiles [none, none, none, none, some "a.jpg"]] := by
  simpa using
    (purge_file_removal_jobs plainState "a" none (mkAsset "a") rfl rfl).1 rfl

/-- C10: the live-photo cascade job enqueued for a purged primary
carries the companion id with no fromExternal flag (the only
ASSET_DELETION job among the newly enqueued jobs is assetDeletion v
none); consequently a companion in an externally-managed library, or
with no library reference, is skipped by its own deletion job, which
returns false and mutates nothing. -/
theorem companion_job_without_fromExternal
    (s : DeletionState) (id v : String) (asset : AssetEntity)
    (hA : getById s.assets id = some asset)
    (hlive : asset.livePhotoVideoId = some v) :
    (∃ newJobs,
      (handleAssetDeletion s id (some true)).1.queued =
        s.queued ++ newJobs ∧
      newJobs.filter JobItem.isAssetDeletionJob =
        [JobItem.assetDeletion v none]) ∧
    (∀ s2 asset2, getById s2.assets v = some asset2 →
      (asset2.library.isNone ||
        asset2.library.any (fun l => l.type == LibraryType.external)) = true →
      handleAssetDeletion s2 v none = (s2, false)) := by
  constructor
  · cases hro : asset.isReadOnly with
    | true =>
      refine ⟨[JobItem.assetDeletion v none], ?_, rfl⟩
      simp [handleAssetDeletion, hA, hlive, hro, fromExternalSet]
    | false =>
      refine ⟨[JobItem.assetDeletion v none,
        JobItem.deleteFiles ([asset.webpPath, asset.resizePath,
          asset.encodedVideoPath, asset.sidecarPath] ++
          (if !fromExternalSet (some true) then [some asset.originalPath]
            else []))], ?_, rfl⟩
      simp [handleAssetDeletion, hA, hlive, hro, fromExternalSet]
  · intro s2 asset2 h2 hlib2
    simp [handleAssetDeletion, h2, hlib2, fromExternalSet]

/-- Witness for C10: purging the live-photo primary L (fromExternal set)
enqueues exactly the cascade job for m without the flag, and running
that job against the externally-stored companion m returns false and
leaves the state unchanged. -/
theorem companion_job_without_fromExternal_witness :
    (∃ newJobs,
      (handleAssetDeletion liveState "L" (some true)).1.queued =
        liveState.queued ++ newJobs ∧
      newJobs.filter JobItem.isAssetDeletionJob =
        [JobItem.assetDeletion "m" none]) ∧
    handleAssetDeletion extCompanionState "m" none =
      (extCompanionState, false) := by
  have h := companion_job_without_fromExternal liveState "L" "m" liveAsset
    rfl rfl
  exact ⟨h.1, h.2 extCompanionState extCompanion rfl rfl⟩

/-- C8: a download step closes the running archive exactly when the
accumulated size strictly exceeds the target (reaching it is not
enough), and the boundary example behaves as specified: sizes in tenths
of a GiB (10, 10, 10, 15, 6) against the caller-supplied target 40
(4 GiB) yield exactly two archives, of sizes 45 (4.5 GiB, assets s1-s4)
and then 6 (0.6 GiB, asset s5). -/
theorem archive_closes_only_beyond_target :
    (∀ (targetSize : Nat) (acc : DownloadAcc) (asset : AssetEntity),
      acc.closedArchives.length <
          (downloadStep targetSize acc asset).closedArchives.length ↔
        targetSize < acc.current.size + assetSize asset) ∧
    (getDownloadInfo [] (some 40) [boundaryPage]).archives.map
        (fun a => (a.size, a.assetIds)) =
      [(45, ["s1", "s2", "s3", "s4"]), (6, ["s5"])] := by
  constructor
  · intro targetSize acc asset
    by_cases h : targetSize < acc.current.size + assetSize asset
    · have hlen : (downloadStep targetSize acc asset).closedArchives.length =
          acc.closedArchives.length + (acc.pendingPushes + 1) := by
        simp [downloadStep, h]
      rw [hlen]
      constructor
      · intro _
        exact h
      · intro _
        omega
    · have hlen : (downloadStep targetSize acc asset).closedArchives.length =
          acc.closedArchives.length := by
        simp [downloadStep, h]
      rw [hlen]
      constructor
      · intro hlt
        exact absurd hlt (lt_irrefl _)
      · intro hgt
        exact absurd hgt h
  · rfl

/-- C2, evaluation at the failing input: with the two single-asset pages
[a] and [b] (1 byte each, default target) the running accumulator is
pushed at the end of both pages without being reset, so the response
holds two aliased copies of the same archive, the id a appears in two
archives, and totalSize double-counts to 4. -/
theorem accumulator_pushed_every_page :
    getDownloadInfo [] none [[mkAsset "a"], [mkAsset "b"]] =
      { totalSize := 4,
        archives := [{ size := 2, assetIds := ["a", "b"] },
          { size := 2, assetIds := ["a", "b"] }] } ∧
    (archiveOrder (getDownloadInfo [] none
      [[mkAsset "a"], [mkAsset "b"]])).count "a" = 2 := by
  constructor <;> rfl

/-- C6, counterexample: in the single page [p1, x], where p1 is a live
photo with companion m1 and x is a plain asset, the companion batch is
appended after the whole page, so the archive order is p1, x, m1: the
companion id is not immediately after its primary. -/
theorem companion_not_immediately_after :
    archiveOrder (getDownloadInfo downloadStoreSix none
        [[livePrimary, plainAfter]]) = ["p1", "x", "m1"] ∧
    ¬ (List.indexOf "m1" ["p1", "x", "m1"] =
        List.indexOf "p1" ["p1", "x", "m1"] + 1) := by
  constructor
  · rfl
  · decide

/-- While a page is processed pendingPushes stays 0, and the ids of the
closed archives followed by the running archive are exactly the already
processed ids, in order. -/
theorem foldl_downloadStep_order (targetSize : Nat) (l : List AssetEntity) :
    ∀ acc : DownloadAcc, acc.pendingPushes = 0 →
      (l.foldl (downloadStep targetSize) acc).pendingPushes = 0 ∧
      (l.foldl (downloadStep targetSize) acc).closedArchives.flatMap
          (fun a => a.assetIds) ++
        (l.foldl (downloadStep targetSize) acc).current.assetIds =
      acc.closedArchives.flatMap (fun a => a.assetIds) ++
        acc.current.assetIds ++ l.map (fun a => a.id) := by
  induction l with
  | nil =>
    intro acc hp
    simpa using hp
  | cons a l ih =>
    intro acc hp
    rw [List.foldl_cons]
    by_cases h : targetSize < acc.current.size + assetSize a
    · have hstep : downloadStep targetSize acc a =
          { closedArchives := acc.closedArchives ++
              [{ size := acc.current.size + assetSize a
                 assetIds := acc.current.assetIds ++ [a.id] }]
            current := { size := 0, assetIds := [] }
            pendingPushes := 0 } := by
        simp [downloadStep, h, hp]
      obtain ⟨h1, h2⟩ := ih (downloadStep targetSize acc a) (by rw [hstep])
      refine ⟨h1, ?_⟩
      rw [h2, hstep]
      simp
    · have hstep : downloadStep targetSize acc a =
          { acc with current :=
              { size := acc.current.size + assetSize a
                assetIds := acc.current.assetIds ++ [a.id] } } := by
        simp [downloadStep, h]
      obtain ⟨h1, h2⟩ := ih (downloadStep targetSize acc a) (by rw [hstep]; exact hp)
      refine ⟨h1, ?_⟩
      rw [h2, hstep]
      simp

/-- C6, amended: over a single-page selection the archive order is the
page's assets in arrival order followed by the batch-fetched motion
companions of the page's live photos; a companion therefore follows the
remainder of the page, not its own primary. -/
theorem companions_batch_after_page
    (store : List AssetEntity) (archiveSize : Option Nat)
    (page : List AssetEntity) :
    archiveOrder (getDownloadInfo store archiveSize [page]) =
      (page ++ getByIds store
          (page.filterMap (fun a => a.livePhotoVideoId))).map
        (fun a => a.id) := by
  have hpage : pageAssets store page = page ++ getByIds store
      (page.filterMap (fun a => a.livePhotoVideoId)) := by
    unfold pageAssets
    by_cases h : (page.filterMap (fun a => a.livePhotoVideoId)).length > 0
    · simp [h]
    · have hnil : page.filterMap (fun a => a.livePhotoVideoId) = [] := by
        cases hc : page.filterMap (fun a => a.livePhotoVideoId) with
        | nil => rfl
        | cons x xs => rw [hc] at h; simp at h
      simp [h, hnil, getByIds]
  have key : ∀ t : Nat,
      ((downloadPage store t
          { closedArchives := [], current := { size := 0, assetIds := [] },
            pendingPushes := 0 } page).closedArchives ++
        List.replicate
          (downloadPage store t
            { closedArchives := [], current := { size := 0, assetIds := [] },
              pendingPushes := 0 } page).pendingPushes
          (downloadPage store t
            { closedArchives := [], current := { size := 0, assetIds := [] },
              pendingPushes := 0 } page).current).flatMap
        (fun a => a.assetIds) =
      (page ++ getByIds store
          (page.filterMap (fun a => a.livePhotoVideoId))).map
        (fun a => a.id) := by
    intro t
    unfold downloadPage
    rw [hpage]
    obtain ⟨h1, h2⟩ := foldl_downloadStep_order t
      (page ++ getByIds store (page.filterMap (fun a => a.livePhotoVideoId)))
      { closedArchives := [], current := { size := 0, assetIds := [] },
        pendingPushes := 0 } rfl
    set F := (page ++ getByIds store
        (page.filterMap (fun a => a.livePhotoVideoId))).foldl (downloadStep t)
      { closedArchives := [], current := { size := 0, assetIds := [] },
        pendingPushes := 0 }
    by_cases hc : F.current.assetIds.length > 0
    · rw [if_pos hc]
      simp only [h1]
      simpa using h2
    · have hnil : F.current.assetIds = [] := by
        cases hx : F.current.assetIds with
        | nil => rfl
        | cons y ys => rw [hx] at hc; simp at hc
      rw [if_neg hc]
      simp only [h1]
      rw [hnil] at h2
      simpa using h2
  unfold getDownloadInfo archiveOrder
  simp only [List.foldl_cons, List.foldl_nil]
  exact key (match archiveSize with
    | some n => if n = 0 then humanReadableSizeGiB * 4 else n
    | none => humanReadableSizeGiB * 4)

/-- Overwriting a present key makes the first matching entry read back
as the written pair. -/
theorem find?_map_overwrite (k : String) (v : Nat) :
    ∀ paths : List (String × Nat), paths.any (fun p => p.1 == k) = true →
    (paths.map (fun p => if p.1 == k then (k, v) else p)).find?
      (fun p => p.1 == k) = some (k, v) := by
  intro paths
  induction paths with
  | nil =>
    intro h
    simp at h
  | cons q ps ih =>
    intro h
    cases hq : (q.1 == k) with
    | true =>
      have hif : (if (q.1 == k) = true then ((k, v) : String × Nat) else q) =
          (k, v) := if_pos hq
      simp only [List.map_cons, hif]
      rw [List.find?_cons_of_pos (p := fun p : String × Nat => p.1 == k) _
        (by simp)]
    | false =>
      have hqn : ¬((q.1 == k) = true) := by simp [hq]
      have hif : (if (q.1 == k) = true then ((k, v) : String × Nat) else q) =
          q := if_neg hqn
      simp only [List.map_cons, hif]
      rw [List.find?_cons_of_neg (p := fun p : String × Nat => p.1 == k) _
        (by simp [hq])]
      apply ih
      simpa [List.any_cons, hq] using h

/-- Appending a fresh key makes it findable at the end. -/
theorem find?_append_missing (k : String) (v : Nat)
    (paths : List (String × Nat))
    (h : paths.any (fun p => p.1 == k) = false) :
    (paths ++ [(k, v)]).find? (fun p => p.1 == k) = some (k, v) := by
  rw [List.find?_append]
  have hnone : paths.find? (fun p => p.1 == k) = none := by
    rw [List.find?_eq_none]
    intro x hx hpx
    have : paths.any (fun p => p.1 == k) = true :=
      List.any_eq_true.mpr ⟨x, hx, hpx⟩
    rw [h] at this
    exact Bool.false_ne_true this
  rw [hnone]
  simp

/-- Reading back the key just written gives the written count. -/
theorem lookupCount_setCount_self (paths : List (String × Nat)) (k : String)
    (v : Nat) : lookupCount (setCount paths k v) k = v := by
  rw [lookupCount, setCount]
  by_cases hany : paths.any (fun p => p.1 == k) = true
  · rw [if_pos hany, find?_map_overwrite k v paths hany]
  · have hf : paths.any (fun p => p.1 == k) = false := by
      cases hx : paths.any (fun p => p.1 == k)
      · rfl
      · exact absurd hx hany
    rw [if_neg hany, find?_append_missing k v paths hf]

/-- Overwriting one key leaves the first match of any other key as it
was. -/
theorem find?_map_overwrite_ne (k k2 : String) (v : Nat) (hne : k2 ≠ k) :
    ∀ paths : List (String × Nat),
    (paths.map (fun p => if p.1 == k then (k, v) else p)).find?
        (fun p => p.1 == k2) =
      paths.find? (fun p => p.1 == k2) := by
  intro paths
  induction paths with
  | nil => rfl
  | cons q ps ih =>
    cases hq : (q.1 == k) with
    | true =>
      have hqk : q.1 = k := eq_of_beq hq
      have hkk2 : (k == k2) = false := by
        simp
        exact Ne.symm hne
      have hif : (if (q.1 == k) = true then ((k, v) : String × Nat) else q) =
          (k, v) := if_pos hq
      simp only [List.map_cons, hif]
      rw [List.find?_cons_of_neg (p := fun p : String × Nat => p.1 == k2) _
          (by simp [hkk2]),
        List.find?_cons_of_neg (p := fun p : String × Nat => p.1 == k2) _
          (by simp [hqk, hkk2])]
      exact ih
    | false =>
      have hqn : ¬((q.1 == k) = true) := by simp [hq]
      have hif : (if (q.1 == k) = true then ((k, v) : String × Nat) else q) =
          q := if_neg hqn
      simp only [List.map_cons, hif]
      cases hq2 : (q.1 == k2) with
      | true =>
        rw [List.find?_cons_of_pos (p := fun p : String × Nat => p.1 == k2) _
            hq2,
          List.find?_cons_of_pos (p := fun p : String × Nat => p.1 == k2) _
            hq2]
      | false =>
        rw [List.find?_cons_of_neg (p := fun p : String × Nat => p.1 == k2) _
            (by simp [hq2]),
          List.find?_cons_of_neg (p := fun p : String × Nat => p.1 == k2) _
            (by simp [hq2])]
        exact ih

/-- Setting one key leaves the read value of any other key unchanged. -/
theorem lookupCount_setCount_ne (paths : List (String × Nat))
    (k k2 : String) (v : Nat) (hne : k2 ≠ k) :
    lookupCount (setCount paths k v) k2 = lookupCount paths k2 := by
  rw [lookupCount, lookupCount, setCount]
  by_cases hany : paths.any (fun p => p.1 == k) = true
  · rw [if_pos hany, find?_map_overwrite_ne k k2 v hne paths]
  · rw [if_neg hany, List.find?_append]
    have hsingle : ([((k, v) : String × Nat)]).find? (fun p => p.1 == k2) =
        none := by
      rw [List.find?_eq_none]
      intro x hx
      simp at hx
      subst hx
      simp [Ne.symm hne]
    rw [hsingle, Option.or_none]

/-- The loop of downloadArchive computes the specification naming when
the counts map records the combined-name occurrences of the already
processed assets. -/
theorem zipGo_eq_specZipGo (ext : String → String) :
    ∀ (rest : List AssetEntity) (paths : List (String × Nat))
      (prior : List AssetEntity),
    (∀ n, lookupCount paths n = (prior.filter
        (fun b => b.originalFileName ++ ext b.originalPath == n)).length) →
    zipGo ext paths rest = specZipGo ext prior rest := by
  intro rest
  induction rest with
  | nil =>
    intro paths prior hinv
    rfl
  | cons a rest ih =>
    intro paths prior hinv
    have hcount : lookupCount paths
        (a.originalFileName ++ ext a.originalPath) =
      (prior.filter (fun b => b.originalFileName ++ ext b.originalPath ==
        a.originalFileName ++ ext a.originalPath)).length := hinv _
    unfold zipGo specZipGo
    refine congrArg₂ List.cons ?_ ?_
    · unfold specName
      rw [hcount]
      by_cases hk : (prior.filter
          (fun b => b.originalFileName ++ ext b.originalPath ==
            a.originalFileName ++ ext a.originalPath)).length = 0
      · simp [hk]
      · simp [hk]
    · apply ih
      intro n
      by_cases hn : n = a.originalFileName ++ ext a.originalPath
      · subst hn
        rw [hcount, lookupCount_setCount_self, List.filter_append]
        simp
      · rw [lookupCount_setCount_ne _ _ _ _ hn, hinv n, List.filter_append]
        simp [Ne.symm hn]

/-- C9: downloadArchive names zip entries by the collision-count rule:
the first asset with combined name N (originalFileName plus the
extension of originalPath) is added under N unchanged, the k-th later
asset colliding on N is added under originalFileName+k followed by the
extension, and distinct combined names are never altered. -/
theorem downloadArchive_collision_naming (ext : String → String)
    (assets : List AssetEntity) :
    zipNames ext assets = specZipNames ext assets := by
  apply zipGo_eq_specZipGo
  intro n
  simp [lookupCount]

/-- C3, counterexample: with every permission granted, a bulk update
whose target list holds the unresolvable id ghost, with an existing
stack parent P, completes with no error at all: a missing plain target
id does not make updateAll fail with NotFound (getByIds silently drops
it). -/
theorem updateAll_missing_target_no_error :
    (updateAll (fun _ => true) [mkAsset "P"]
      { ids := ["ghost"], removeParent := false,
        stackParentId := some "P" }).2 = none := by rfl

/-- C3, amended: a supplied stackParentId that does not resolve to an
asset fails with NotFound (line 432); a supplied stackParentId the
caller lacks update permission on fails with Forbidden before any store
operation (the trace is empty); and without a stackParentId the call
never fails once the target permission check passes, whether or not the
target ids resolve. -/
theorem updateAll_failure_modes :
    (∀ (perm : String → Bool) (assets : List AssetEntity)
      (dto : AssetBulkUpdateDto) (pid : String),
      dto.removeParent = false → dto.stackParentId = some pid → pid ≠ "" →
      dto.ids.all perm = true → perm pid = true →
      getById assets pid = none →
      updateAll perm assets dto = ([], some UpdateAllError.assetNotFound)) ∧
    (∀ (perm : String → Bool) (assets : List AssetEntity)
      (dto : AssetBulkUpdateDto) (pid : String),
      dto.removeParent = false → dto.stackParentId = some pid → pid ≠ "" →
      dto.ids.all perm = true → perm pid = false →
      updateAll perm assets dto = ([], some UpdateAllError.forbidden)) ∧
    (∀ (perm : String → Bool) (assets : List AssetEntity)
      (dto : AssetBulkUpdateDto),
      dto.stackParentId = none → dto.ids.all perm = true →
      (updateAll perm assets dto).2 = none) := by
  refine ⟨?_, ?_, ?_⟩
  · intro perm assets dto pid hrp hsp hne hall hperm hget
    simp [updateAll, hrp, hsp, hall, hperm, hget, truthyStr, bne_iff_ne, hne]
  · intro perm assets dto pid hrp hsp hne hall hperm
    simp [updateAll, hrp, hsp, hall, hperm, truthyStr, bne_iff_ne, hne]
  · intro perm assets dto hsp hall
    by_cases hrp : dto.removeParent = true
    · simp [updateAll, hrp, hsp, hall, truthyStr]
    · simp [updateAll, hrp, hsp, hall, truthyStr]

/-- Witness for C3 (amended): a missing stack parent Q yields NotFound,
a forbidden stack parent yields Forbidden with an empty trace, and a
bulk update of an unresolvable id without a stack parent succeeds. -/
theorem updateAll_failure_modes_witness :
    updateAll (fun _ => true) []
      { ids := [], removeParent := false, stackParentId := some "Q" } =
      ([], some UpdateAllError.assetNotFound) ∧
    updateAll (fun _ => false) []
      { ids := [], removeParent := false, stackParentId := some "Q" } =
      ([], some UpdateAllError.forbidden) ∧
    (updateAll (fun _ => true) []
      { ids := ["z"], removeParent := false, stackParentId := none }).2 =
      none :=
  ⟨updateAll_failure_modes.1 (fun _ => true) [] _ "Q" rfl rfl (by decide)
      rfl rfl rfl,
    updateAll_failure_modes.2.1 (fun _ => false) [] _ "Q" rfl rfl (by decide)
      rfl rfl,
    updateAll_failure_modes.2.2 (fun _ => true) [] _ rfl rfl⟩

/-- The empty trace trivially has its writes before its deletes. -/
theorem wbd_nil : writesBeforeDeletes [] :=
  ⟨[], [], by simp, by simp⟩

/-- A single non-delete operation has its writes before its deletes. -/
theorem wbd_singleton (x : StoreOp) (hx : x.isStackDelete = false) :
    writesBeforeDeletes [x] :=
  ⟨[x], [], by simp, by
    intro op hop
    simp only [List.mem_singleton] at hop
    subst hop
    exact hx⟩

/-- A non-delete operation followed by deletions has its writes before
its deletes. -/
theorem wbd_cons_map (x : StoreOp) (hx : x.isStackDelete = false)
    (dels : List String) :
    writesBeforeDeletes (x :: List.map StoreOp.stackDelete dels) :=
  ⟨[x], dels, by simp, by
    intro op hop
    simp only [List.mem_singleton] at hop
    subst hop
    exact hx⟩

/-- Two non-delete operations followed by deletions have their writes
before their deletes. -/
theorem wbd_cons_cons_map (x y : StoreOp) (hx : x.isStackDelete = false)
    (hy : y.isStackDelete = false) (dels : List String) :
    writesBeforeDeletes (x :: y :: List.map StoreOp.stackDelete dels) :=
  ⟨[x, y], dels, by simp, by
    intro op hop
    simp only [List.mem_cons, List.not_mem_nil, or_false] at hop
    rcases hop with hop | hop
    · subst hop
      exact hx
    · subst hop
      exact hy⟩

/-- Every trace updateAll produces is the non-delete store writes
followed by the stack deletions. -/
theorem updateAll_trace_shape (perm : String → Bool)
    (assets : List AssetEntity) (dto : AssetBulkUpdateDto) :
    writesBeforeDeletes (updateAll perm assets dto).1 := by
  cases hall : dto.ids.all perm with
  | false =>
    simp only [updateAll, hall]
    simpa using wbd_nil
  | true =>
    cases hrp : dto.removeParent with
    | true =>
      simp [updateAll, hall, hrp]
      apply wbd_cons_map
      rfl
    | false =>
      cases htr : truthyStr dto.stackParentId with
      | false =>
        simp [updateAll, hall, hrp, htr]
        exact wbd_singleton _ rfl
      | true =>
        cases hpp : perm (dto.stackParentId.getD "") with
        | false =>
          simp [updateAll, hall, hrp, htr, hpp]
          exact wbd_nil
        | true =>
          cases hget : getById assets (dto.stackParentId.getD "") with
          | none =>
            simp [updateAll, hall, hrp, htr, hpp, hget]
            exact wbd_nil
          | some pa =>
            cases hstk : pa.stack with
            | none =>
              simp [updateAll, hall, hrp, htr, hpp, hget, hstk]
              apply wbd_cons_cons_map
              · rfl
              · rfl
            | some st =>
              simp [updateAll, hall, hrp, htr, hpp, hget, hstk]
              apply wbd_cons_cons_map
              · rfl
              · rfl

/-- In a trace of the shape writes-then-deletes, any delete position is
after any non-delete position. -/
theorem deletes_after_writes (pre : List StoreOp) (dels : List String)
    (i j : Nat) (opi opj : StoreOp)
    (hpre : ∀ op ∈ pre, op.isStackDelete = false)
    (hi : (pre ++ List.map StoreOp.stackDelete dels)[i]? = some opi)
    (hj : (pre ++ List.map StoreOp.stackDelete dels)[j]? = some opj)
    (hdi : opi.isStackDelete = true)
    (hdj : opj.isStackDelete = false) : j < i := by
  have hile : pre.length ≤ i := by
    by_contra hlt
    push_neg at hlt
    rw [List.getElem?_append_left hlt] at hi
    have hmem : opi ∈ pre := List.getElem?_mem hi
    rw [hpre opi hmem] at hdi
    exact Bool.false_ne_true hdi
  have hjlt : j < pre.length := by
    by_contra hge
    push_neg at hge
    rw [List.getElem?_append_right hge] at hj
    have hmem : opj ∈ List.map StoreOp.stackDelete dels :=
      List.getElem?_mem hj
    obtain ⟨d, _, hd⟩ := List.mem_map.mp hmem
    rw [← hd] at hdj
    simp [StoreOp.isStackDelete] at hdj
  omega

/-- C7: in every updateAll trace, each stackDelete operation comes after
every non-delete store operation, in particular after the destination
stack create or save and after the bulk asset update: if position i
holds a stack deletion and position j holds any non-delete operation,
then j is before i. -/
theorem updateAll_delete_after_write (perm : String → Bool)
    (assets : List AssetEntity) (dto : AssetBulkUpdateDto)
    (i j : Nat) (opi opj : StoreOp)
    (hi : (updateAll perm assets dto).1[i]? = some opi)
    (hj : (updateAll perm assets dto).1[j]? = some opj)
    (hdi : opi.isStackDelete = true)
    (hdj : opj.isStackDelete = false) : j < i := by
  obtain ⟨pre, dels, heq, hpre⟩ := updateAll_trace_shape perm assets dto
  rw [heq] at hi hj
  exact deletes_after_writes pre dels i j opi opj hpre hi hj hdi hdj

/-- Witness for C7: removing the stack parent of q writes the bulk asset
update at position 0 and the deletion of stack S at position 1, and the
theorem instantiates to 0 before 1. -/
theorem updateAll_delete_after_write_witness :
    (updateAll (fun _ => true) [stackedQ] removeParentDto).1 =
      [StoreOp.assetUpdateAll ["q", "q"], StoreOp.stackDelete "S"] ∧
    (0 : Nat) < 1 :=
  ⟨rfl,
    updateAll_delete_after_write (fun _ => true) [stackedQ] removeParentDto
      1 0 (StoreOp.stackDelete "S") (StoreOp.assetUpdateAll ["q", "q"])
      rfl rfl rfl rfl⟩

end Immich
